import Mathlib

/-!
# i2cget_block: a shallow embedding of `i2cget_block.c`

The program reads a block of bytes from a register of an I2C/SMBus device
and prints it as a hexadecimal string.  The functions `help`, `check_funcs`
and `main` of `src/i2cget_block.c` are translated statement by statement:

* C strings are `List Char` (the characters before the terminating NUL);
* `int` is `Int`, a `long` stored in an `int` is reduced with `to_int`;
* the width of `long` is a parameter `lb` (64 on LP64 Linux, 32 on ILP32);
* `strtol` with base 0 and `printf("%2x")` of the C library are `strtol` and
  `printf_2x`;
* the library and kernel calls the program makes (`lookup_i2c_bus`,
  `parse_i2c_address`, `open_i2c_dev`, `set_slave_addr`, the two `ioctl`
  requests, `i2c_smbus_read_i2c_block_data`) are fields of `Env`;
* the macros of headers that the program includes are fields of `Header`;
* `exit` ends the run: a run yields an `Outcome`, the exit status together
  with standard output, the messages written to standard error and the
  sequence of external calls, each in order;
* `main` is written in two parts, the examination of the arguments (`main`)
  and everything from `open_i2c_dev` on (`main_device`).
-/

namespace I2cgetBlock

/-! ## C strings and `strtol` -/

/-- Character `s[i]` of a C string: the terminating NUL at (and, in the model,
after) the end of the characters. -/
def cAt (s : List Char) (i : Nat) : Char :=
  s.getD i (Char.ofNat 0)

/-- C `isspace` in the "C" locale. -/
def isspace (c : Char) : Bool :=
  c = ' ' || c = '\t' || c = '\n' || c = Char.ofNat 11 || c = Char.ofNat 12 || c = '\r'

/-- Value of a character as a digit of `strtol`: `0-9`, then letters for 10 to 35. -/
def digitVal (c : Char) : Option Nat :=
  if 48 ≤ c.toNat ∧ c.toNat ≤ 57 then some (c.toNat - 48)
  else if 97 ≤ c.toNat ∧ c.toNat ≤ 122 then some (c.toNat - 87)
  else if 65 ≤ c.toNat ∧ c.toNat ≤ 90 then some (c.toNat - 55)
  else none

/-- Longest run of digits of the base at the start of `s`, accumulated onto `acc`;
the flag tells whether a digit was consumed, the list is what is left. -/
def scanDigits (base : Nat) : List Char → Nat → Bool → Nat × Bool × List Char
  | [], acc, any => (acc, any, [])
  | c :: cs, acc, any =>
    match digitVal c with
    | some d => if d < base then scanDigits base cs (acc * base + d) true else (acc, any, c :: cs)
    | none => (acc, any, c :: cs)

/-- Largest value of a `long` of `lb` bits. -/
def LONG_MAX (lb : Nat) : Int := 2 ^ (lb - 1) - 1

/-- Smallest value of a `long` of `lb` bits. -/
def LONG_MIN (lb : Nat) : Int := -(2 ^ (lb - 1))

/-- Whether `s` starts with `0x` or `0X` followed by a hexadecimal digit. -/
def has_0x (s : List Char) : Bool :=
  cAt s 0 = '0' && (cAt s 1 = 'x' || cAt s 1 = 'X') &&
    (match digitVal (cAt s 2) with | some d => decide (d < 16) | none => false)

/-- The digits of `strtol` with base 0, after white space and sign: base 16 after
`0x`, base 8 after `0`, base 10 otherwise. -/
def strtol_digits (s : List Char) : Nat × Bool × List Char :=
  if has_0x s then scanDigits 16 (s.drop 2) 0 false
  else if cAt s 0 = '0' then scanDigits 8 s 0 false
  else scanDigits 10 s 0 false

/-- The conversion of `strtol` after the white space: one optional sign, then the
digits; `none` when there is no digit, else the value, clamped to the range of `long`,
and what follows the digits. -/
def strtol_signed (lb : Nat) (s : List Char) : Option (Int × List Char) :=
  let neg : Bool := cAt s 0 = '-'
  let s2 := if cAt s 0 = '-' ∨ cAt s 0 = '+' then s.drop 1 else s
  match strtol_digits s2 with
  | (_, false, _) => none
  | (v, true, rest) =>
    some (if neg then max (LONG_MIN lb) (-(v : Int)) else min (LONG_MAX lb) (v : Int), rest)

/-- C `strtol(s, &end, 0)` of the C library: the value returned and the string `end`
points to.  White space is skipped, one sign is read, the base is 16 after `0x` or
`0X` followed by a hexadecimal digit, 8 after `0`, 10 otherwise; without any digit
the result is 0 with `end = s`; a value that does not fit a `long` is clamped. -/
def strtol (lb : Nat) (s : List Char) : Int × List Char :=
  match strtol_signed lb (s.dropWhile isspace) with
  | none => (0, s)
  | some r => r

/-- Conversion of a `long` to a 32-bit `int` (wraps modulo `2^32`). -/
def to_int (x : Int) : Int := (x + 2 ^ 31) % 2 ^ 32 - 2 ^ 31

/-- C `printf("%2x", v)`: lower-case hexadecimal, at least two characters wide,
padded on the left with spaces. -/
def printf_2x (v : Nat) : String :=
  let ds := Nat.toDigits 16 v
  String.mk (List.replicate (2 - ds.length) ' ' ++ ds)

/-! ## The world outside the program -/

/-- Macros of the headers the program includes (`linux/i2c.h`, `i2cbusses.h`). -/
structure Header where
  I2C_FUNC_SMBUS_READ_BLOCK_DATA : Nat
  I2C_FUNC_SMBUS_PEC : Nat
  I2C_FUNC_I2C : Nat
  /-- The text `fprintf(stderr, MISSING_FUNC_FMT, s)` writes. -/
  MISSING_FUNC_FMT : String → String

/-- The calls the program makes into libraries and the kernel.  Each is called at
most once in a run, so a function of the arguments describes any device. -/
structure Env where
  lookup_i2c_bus : List Char → Int
  parse_i2c_address : List Char → Int
  /-- The call `open_i2c_dev(i2cbus, filename, sizeof(filename), 0)`: the handle, or a
  negative number. -/
  open_i2c_dev : Int → Int
  /-- The call `ioctl(file, I2C_FUNCS, &funcs)`: the return value and the word stored in
  `funcs`. -/
  ioctl_I2C_FUNCS : Int → Int × Nat
  set_slave_addr : Int → Int → Int → Int
  /-- The call `ioctl(file, I2C_PEC, 1)`. -/
  ioctl_I2C_PEC : Int → Int
  /-- The call `i2c_smbus_read_i2c_block_data(file, daddress, blocksize, values)`: the
  return value and the bytes of `values` after the call. -/
  i2c_smbus_read_i2c_block_data : Int → Int → Int → Int × List Nat
  /-- The text `strerror(errno)` after a failed `ioctl`. -/
  strerror_errno : String

/-- One external call of a run, with its arguments and return value. -/
inductive Event
  | lookup_i2c_bus (arg : List Char) (ret : Int)
  | parse_i2c_address (arg : List Char) (ret : Int)
  | open_i2c_dev (i2cbus ret : Int)
  | ioctl_I2C_FUNCS (file ret : Int)
  | set_slave_addr (file address force ret : Int)
  | ioctl_I2C_PEC (file ret : Int)
  | i2c_smbus_read_i2c_block_data (file daddress blocksize ret : Int)
  | close (file : Int)
  deriving DecidableEq

/-- One `fprintf(stderr, ...)` of the source, named after what it reports. -/
inductive Msg
  | usage
  | funcs_failed
  | missing_func
  | pec_warning
  | version
  | unsupported_option (arg : List Char)
  | data_address_invalid
  | invalid_mode
  | pec_failed
  | read_failed
  deriving DecidableEq

def VERSION : String := "0.1"

def MIN_BLOCK_SIZE : Int := 1

def MAX_BLOCK_SIZE : Int := 32

/-- The characters a message puts on standard error. -/
def Msg.text (H : Header) (E : Env) : Msg → String
  | .usage =>
    "Usage: i2cget_block [-f] I2CBUS CHIP-ADDRESS [DATA-ADDRESS [SIZE]]\n" ++
    "  I2CBUS is an integer or an I2C bus name\n" ++
    "  ADDRESS is an integer (0x03 - 0x77)\n" ++
    "  SIZE is a number (" ++ toString MIN_BLOCK_SIZE ++ " .. " ++ toString MAX_BLOCK_SIZE ++
    ") of bytes to read\n"
  | .funcs_failed =>
    "Error: Could not get the adapter functionality matrix: " ++ E.strerror_errno ++ "\n"
  | .missing_func => H.MISSING_FUNC_FMT "SMBus read block"
  | .pec_warning => "Warning: Adapter does not seem to support PEC\n"
  | .version => "i2cget_block version " ++ VERSION ++ "\n"
  | .unsupported_option arg => "Error: Unsupported option \"" ++ String.mk arg ++ "\"!\n"
  | .data_address_invalid => "Error: Data address invalid!\n"
  | .invalid_mode => "Error: Invalid mode!\n"
  | .pec_failed => "Error: Could not set PEC: " ++ E.strerror_errno ++ "\n"
  | .read_failed => "Error: Read failed\n"

/-- What a run has done so far: standard output, the messages on standard error and
the external calls, each in order. -/
structure World where
  out : String
  err : List Msg
  trace : List Event
  deriving DecidableEq

/-- A finished run: the exit status and everything done before it. -/
structure Outcome extends World where
  status : Int
  deriving DecidableEq

def World.print (w : World) (s : String) : World := { w with out := w.out ++ s }

def World.eprint (w : World) (m : Msg) : World := { w with err := w.err ++ [m] }

def World.call (w : World) (e : Event) : World := { w with trace := w.trace ++ [e] }

/-- All of standard error as text. -/
def World.errText (H : Header) (E : Env) (w : World) : String :=
  String.join (w.err.map (Msg.text H E))

/-! ## The program -/

/-- The function `help()`: the usage text, then `exit(1)`. -/
def help (w : World) : Outcome :=
  { toWorld := w.eprint .usage, status := 1 }

/-- The function `check_funcs(file, daddress, pec)`: the return value and the world
after the call. -/
def check_funcs (H : Header) (E : Env) (w : World) (file _daddress pec : Int) : Int × World :=
  let q := E.ioctl_I2C_FUNCS file
  let w := w.call (.ioctl_I2C_FUNCS file q.1)
  if q.1 < 0 then (-1, w.eprint .funcs_failed)
  else if q.2 &&& H.I2C_FUNC_SMBUS_READ_BLOCK_DATA = 0 then (-1, w.eprint .missing_func)
  else
    let w := if pec ≠ 0 ∧ q.2 &&& (H.I2C_FUNC_SMBUS_PEC ||| H.I2C_FUNC_I2C) = 0
      then w.eprint .pec_warning else w
    (0, w)

/-- The flag loop at the start of `main`, over the arguments `argv[1 + flags ..]`:
either the process ends in the loop, or the loop is left with `flags` and `force`. -/
def flag_loop (w : World) : List (List Char) → Nat → Int → Except Outcome (Nat × Int)
  | [], flags, force => .ok (flags, force)
  | arg :: rest, flags, force =>
    if cAt arg 0 = '-' then
      if cAt arg 1 = 'V' then .error { toWorld := w.eprint .version, status := 0 }
      else if cAt arg 1 = 'f' then flag_loop w rest (flags + 1) 1
      else .error (help (w.eprint (.unsupported_option arg)))
    else .ok (flags, force)

/-- The loop `for (i = 0; i < res; i++) printf("%2x", values[i])`. -/
def print_values (w : World) (values : List Nat) (res : Int) : World :=
  (List.range res.toNat).foldl (fun w i => w.print (printf_2x (values.getD i 0 % 256))) w

/-- The second half of `main`, from `open_i2c_dev` to the last `exit`, with the values
the first half has left in the variables of `main`. -/
def main_device (H : Header) (E : Env) (w : World)
    (i2cbus address force daddress blocksize pec : Int) : Outcome :=
  let file := E.open_i2c_dev i2cbus
  let w := w.call (.open_i2c_dev i2cbus file)
  if file < 0 then { toWorld := w, status := 1 } else
  let c := check_funcs H E w file daddress pec
  let w := c.2
  if c.1 ≠ 0 then { toWorld := w, status := 1 } else
  let s := E.set_slave_addr file address force
  let w := w.call (.set_slave_addr file address force s)
  if s ≠ 0 then { toWorld := w, status := 1 } else
  let p := E.ioctl_I2C_PEC file
  let w := if pec ≠ 0 then w.call (.ioctl_I2C_PEC file p) else w
  if pec ≠ 0 ∧ p < 0 then
    { toWorld := (w.eprint .pec_failed).call (.close file), status := 1 } else
  let rd := E.i2c_smbus_read_i2c_block_data file daddress blocksize
  let w := w.call (.i2c_smbus_read_i2c_block_data file daddress blocksize rd.1)
  let w := w.call (.close file)
  if rd.1 < 0 then { toWorld := w.eprint .read_failed, status := 2 } else
  let w := w.print "0x"
  let w := print_values w rd.2 rd.1
  let w := w.print "\n"
  { toWorld := w, status := 0 }

/-- The function `main(argc, argv)` with `argc = argv.length`: the flag loop, the
validation of the arguments, then `main_device`. -/
def main (lb : Nat) (H : Header) (E : Env) (argv : List (List Char)) : Outcome :=
  let argc := argv.length
  let w : World := { out := "", err := [], trace := [] }
  match flag_loop w (argv.drop 1) 0 0 with
  | .error o => o
  | .ok (flags, force) =>
    if argc < flags + 3 then help w else
    let i2cbus := E.lookup_i2c_bus (argv.getD (flags + 1) [])
    let w := w.call (.lookup_i2c_bus (argv.getD (flags + 1) []) i2cbus)
    if i2cbus < 0 then help w else
    let address := E.parse_i2c_address (argv.getD (flags + 2) [])
    let w := w.call (.parse_i2c_address (argv.getD (flags + 2) []) address)
    if address < 0 then help w else
    let r3 := strtol lb (argv.getD (flags + 3) [])
    let daddress := if argc > flags + 3 then to_int r3.1 else -1
    if argc > flags + 3 ∧ (cAt r3.2 0 ≠ Char.ofNat 0 ∨ daddress < 0 ∨ daddress > 0xff) then
      help (w.eprint .data_address_invalid) else
    let r4 := strtol lb (argv.getD (flags + 4) [])
    let blocksize := if argc > flags + 4 then to_int r4.1 else 4
    if argc > flags + 4 ∧ (blocksize < MIN_BLOCK_SIZE ∨ blocksize > MAX_BLOCK_SIZE) then
      help (w.eprint .invalid_mode) else
    let pec : Int := if argc > flags + 4 ∧ cAt (argv.getD (flags + 4) []) 1 = 'p' then 1 else 0
    main_device H E w i2cbus address force daddress blocksize pec

/-! ## Sample surroundings -/

/-- The constants of `linux/i2c.h` and the format of `i2cbusses.h`. -/
def linux : Header where
  I2C_FUNC_SMBUS_READ_BLOCK_DATA := 0x01000000
  I2C_FUNC_SMBUS_PEC := 0x00000008
  I2C_FUNC_I2C := 0x00000001
  MISSING_FUNC_FMT := fun s => "Error: Adapter does not have " ++ s ++ " capability\n"

/-- A device on which every call succeeds; the handle is 3, the adapter has every
function, and the read delivers `res` with `values` in the buffer. -/
def device (res : Int) (values : List Nat) : Env where
  lookup_i2c_bus := fun _ => 1
  parse_i2c_address := fun _ => 0x50
  open_i2c_dev := fun _ => 3
  ioctl_I2C_FUNCS := fun _ => (0, 0x0fff0009)
  set_slave_addr := fun _ _ _ => 0
  ioctl_I2C_PEC := fun _ => 0
  i2c_smbus_read_i2c_block_data := fun _ _ _ => (res, values)
  strerror_errno := "Input/output error"

/-- The same device with an adapter whose functionality query fails. -/
def device_no_funcs : Env :=
  { device 0 [] with ioctl_I2C_FUNCS := fun _ => (-1, 0) }

/-- The same device with an adapter that reports no function at all. -/
def device_bare : Env :=
  { device 0 [] with ioctl_I2C_FUNCS := fun _ => (0, 0) }

/-- The arguments `i2cget_block 1 0x50 REGISTER SIZE`. -/
def args (register size : String) : List (List Char) :=
  ["i2cget_block".data, "1".data, "0x50".data, register.data, size.data]

/-- The same device with an adapter that has block read and neither PEC nor raw I2C. -/
def device_no_pec : Env :=
  { device 0 [] with ioctl_I2C_FUNCS := fun _ => (0, 0x01000000) }

/-- The world at the start of a run. -/
def World.start : World := { out := "", err := [], trace := [] }

/-- The function an external call goes to. -/
inductive Call
  | lookup_i2c_bus
  | parse_i2c_address
  | open_i2c_dev
  | ioctl_I2C_FUNCS
  | set_slave_addr
  | ioctl_I2C_PEC
  | i2c_smbus_read_i2c_block_data
  | close
  deriving DecidableEq

/-- The function called in an event, without arguments and return value. -/
def Event.name : Event → Call
  | .lookup_i2c_bus _ _ => .lookup_i2c_bus
  | .parse_i2c_address _ _ => .parse_i2c_address
  | .open_i2c_dev _ _ => .open_i2c_dev
  | .ioctl_I2C_FUNCS _ _ => .ioctl_I2C_FUNCS
  | .set_slave_addr _ _ _ _ => .set_slave_addr
  | .ioctl_I2C_PEC _ _ => .ioctl_I2C_PEC
  | .i2c_smbus_read_i2c_block_data _ _ _ _ => .i2c_smbus_read_i2c_block_data
  | .close _ => .close

/-- The same device with the address claimed by a driver: `set_slave_addr` fails. -/
def device_busy : Env :=
  { device 0 [] with set_slave_addr := fun _ _ _ => -1 }

/-! ## Evaluations of the program -/

/-- C1: with the single byte 0x05 in the buffer the program prints `0x 5` and a
newline, the byte padded with a space by `%2x`, not the two digits `05`. -/
theorem c1_byte_below_0x10_is_space_padded :
    (main 64 linux (device 1 [0x05]) (args "0x10" "4")).out = "0x 5\n" ∧
    (main 64 linux (device 1 [0x05]) (args "0x10" "4")).out ≠ "0x05\n" ∧
    (main 64 linux (device 1 [0x05]) (args "0x10" "4")).status = 0 ∧
    (main 64 linux (device 4 [0x11, 0x22, 0x33, 0x44]) (args "0x10" "4")).out =
      "0x11223344\n" := by
  decide

/-- C2: when the functionality query fails after the device was opened with handle 3,
the run ends with status 1 and the handle was never closed; the same happens when the
adapter lacks block read and when `set_slave_addr` fails. -/
theorem c2_handle_left_open_on_setup_failure :
    (main 64 linux device_no_funcs (args "0x10" "4")).trace =
      [.lookup_i2c_bus "1".data 1, .parse_i2c_address "0x50".data 0x50,
       .open_i2c_dev 1 3, .ioctl_I2C_FUNCS 3 (-1)] ∧
    (main 64 linux device_no_funcs (args "0x10" "4")).status = 1 ∧
    (main 64 linux device_bare (args "0x10" "4")).trace =
      [.lookup_i2c_bus "1".data 1, .parse_i2c_address "0x50".data 0x50,
       .open_i2c_dev 1 3, .ioctl_I2C_FUNCS 3 0] ∧
    (main 64 linux device_bare (args "0x10" "4")).status = 1 ∧
    (main 64 linux device_busy (args "0x10" "4")).trace =
      [.lookup_i2c_bus "1".data 1, .parse_i2c_address "0x50".data 0x50,
       .open_i2c_dev 1 3, .ioctl_I2C_FUNCS 3 0, .set_slave_addr 3 0x50 0 (-1)] ∧
    (main 64 linux device_busy (args "0x10" "4")).status = 1 ∧
    Event.close 3 ∉ (main 64 linux device_no_funcs (args "0x10" "4")).trace ∧
    Event.close 3 ∉ (main 64 linux device_bare (args "0x10" "4")).trace ∧
    Event.close 3 ∉ (main 64 linux device_busy (args "0x10" "4")).trace := by
  decide

/-- C3: with a 64-bit `long` the SIZE token 4294967297 (2^32 + 1) is stored in the
`int` as 1, passes the range check, and the device is opened and read with block
size 1.  (With a 32-bit `long` the value is clamped and the token is rejected, and the
token 99 is rejected without any call to the device.) -/
theorem c3_size_above_int_range_is_accepted :
    (main 64 linux (device 1 [0x05]) (args "0x10" "4294967297")).trace =
      [.lookup_i2c_bus "1".data 1, .parse_i2c_address "0x50".data 0x50,
       .open_i2c_dev 1 3, .ioctl_I2C_FUNCS 3 0, .set_slave_addr 3 0x50 0 0,
       .i2c_smbus_read_i2c_block_data 3 0x10 1 1, .close 3] ∧
    (main 64 linux (device 1 [0x05]) (args "0x10" "4294967297")).status = 0 ∧
    (main 32 linux (device 1 [0x05]) (args "0x10" "4294967297")).status = 1 ∧
    (main 64 linux (device 1 [0x05]) (args "0x10" "99")).status = 1 ∧
    (main 64 linux (device 1 [0x05]) (args "0x10" "99")).trace =
      [.lookup_i2c_bus "1".data 1, .parse_i2c_address "0x50".data 0x50] := by
  decide

/-- C6: the empty REGISTER token passes register validation as data address 0: the
device is opened and read at register 0, and the run ends with status 0.  (With a
64-bit `long` the token 4294967296 is accepted as register 0 in the same way; the
tokens `0x10z`, `-1` and `256` are rejected without any call to the device.) -/
theorem c6_empty_register_is_accepted :
    (main 64 linux (device 1 [0x05]) (args "" "4")).trace =
      [.lookup_i2c_bus "1".data 1, .parse_i2c_address "0x50".data 0x50,
       .open_i2c_dev 1 3, .ioctl_I2C_FUNCS 3 0, .set_slave_addr 3 0x50 0 0,
       .i2c_smbus_read_i2c_block_data 3 0 4 1, .close 3] ∧
    (main 64 linux (device 1 [0x05]) (args "" "4")).status = 0 ∧
    (main 64 linux (device 1 [0x05]) (args "4294967296" "4")).status = 0 ∧
    (main 64 linux (device 1 [0x05]) (args "0x10z" "4")).trace =
      [.lookup_i2c_bus "1".data 1, .parse_i2c_address "0x50".data 0x50] ∧
    (main 64 linux (device 1 [0x05]) (args "-1" "4")).status = 1 ∧
    (main 64 linux (device 1 [0x05]) (args "256" "4")).status = 1 := by
  decide

/-! ## The capability gate -/

theorem lor_eq_zero (a b : Nat) : a ||| b = 0 ↔ a = 0 ∧ b = 0 := by
  constructor
  · intro h
    constructor
    · apply Nat.eq_of_testBit_eq
      intro i
      have := congrArg (fun n => n.testBit i) h
      simp only [Nat.testBit_or, Nat.zero_testBit, Bool.or_eq_false_iff] at this
      simpa using this.1
    · apply Nat.eq_of_testBit_eq
      intro i
      have := congrArg (fun n => n.testBit i) h
      simp only [Nat.testBit_or, Nat.zero_testBit, Bool.or_eq_false_iff] at this
      simpa using this.2
  · rintro ⟨rfl, rfl⟩
    rfl

theorem land_lor_eq_zero (x a b : Nat) : x &&& (a ||| b) = 0 ↔ x &&& a = 0 ∧ x &&& b = 0 := by
  rw [Nat.and_or_distrib_left, lor_eq_zero]

/-- C7 as the claim states it fails: the adapter reports no function at all and PEC is
requested, so PEC is set and neither the PEC bit nor the raw-I2C bit is set, yet
`check_funcs` returns -1 at the block-read test and the only message is the one about
the missing function; no warning is written. -/
theorem c7_no_warning_without_block_read :
    (check_funcs linux device_bare World.start 3 0x10 1).1 = -1 ∧
    (check_funcs linux device_bare World.start 3 0x10 1).2.err = [Msg.missing_func] ∧
    Msg.pec_warning ∉ (check_funcs linux device_bare World.start 3 0x10 1).2.err ∧
    (device_bare.ioctl_I2C_FUNCS 3).1 = 0 ∧
    (device_bare.ioctl_I2C_FUNCS 3).2 &&& linux.I2C_FUNC_SMBUS_PEC = 0 ∧
    (device_bare.ioctl_I2C_FUNCS 3).2 &&& linux.I2C_FUNC_I2C = 0 := by
  decide

/-- C7, amended: `check_funcs` returns -1 when the query fails; after a successful query
it returns 0 exactly when the block-read bit is set, and -1 otherwise, whatever `pec`
is; the PEC warning is what the call adds to standard error exactly when the query
succeeded, the block-read bit is set, `pec` is set and neither the PEC bit nor the
raw-I2C bit is set, and then the return value is 0. -/
theorem c7_check_funcs_gate (H : Header) (E : Env) (w : World) (file daddress pec : Int) :
    let q := E.ioctl_I2C_FUNCS file
    let r := check_funcs H E w file daddress pec
    (q.1 < 0 → r.1 = -1) ∧
    (0 ≤ q.1 → (r.1 = 0 ↔ q.2 &&& H.I2C_FUNC_SMBUS_READ_BLOCK_DATA ≠ 0)) ∧
    (r.1 = 0 ∨ r.1 = -1) ∧
    (r.2.err = w.err ++ [Msg.pec_warning] ↔
      0 ≤ q.1 ∧ q.2 &&& H.I2C_FUNC_SMBUS_READ_BLOCK_DATA ≠ 0 ∧ pec ≠ 0 ∧
        q.2 &&& H.I2C_FUNC_SMBUS_PEC = 0 ∧ q.2 &&& H.I2C_FUNC_I2C = 0) ∧
    (r.2.err = w.err ++ [Msg.pec_warning] → r.1 = 0) := by
  intro q r
  simp only [r, q, check_funcs, World.call, World.eprint, land_lor_eq_zero]
  by_cases hq : (E.ioctl_I2C_FUNCS file).1 < 0
  · have hq2 : ¬ 0 ≤ (E.ioctl_I2C_FUNCS file).1 := by omega
    simp [hq, hq2]
  · have hq2 : 0 ≤ (E.ioctl_I2C_FUNCS file).1 := by omega
    by_cases hb : (E.ioctl_I2C_FUNCS file).2 &&& H.I2C_FUNC_SMBUS_READ_BLOCK_DATA = 0
    · simp [hq, hq2, hb]
    · by_cases hp : pec ≠ 0 ∧ (E.ioctl_I2C_FUNCS file).2 &&& H.I2C_FUNC_SMBUS_PEC = 0 ∧
          (E.ioctl_I2C_FUNCS file).2 &&& H.I2C_FUNC_I2C = 0
      · simp [hq, hq2, hb, hp]
      · simp only [hq, hq2, hb, hp, if_false, if_true, not_false_eq_true, ne_eq, true_and,
          true_implies, false_implies, iff_true, true_or, implies_true, and_true]
        simp

/-- C7 at an adapter with block read, without PEC and without raw I2C, PEC requested:
the call returns 0 and the warning is all it writes. -/
theorem c7_check_funcs_gate_witness :
    0 ≤ (device_no_pec.ioctl_I2C_FUNCS 3).1 ∧
    (check_funcs linux device_no_pec World.start 3 0x10 1).1 = 0 ∧
    (check_funcs linux device_no_pec World.start 3 0x10 1).2.err = [Msg.pec_warning] :=
  ⟨by decide,
   ((c7_check_funcs_gate linux device_no_pec World.start 3 0x10 1).2.1 (by decide)).2
     (by decide),
   (c7_check_funcs_gate linux device_no_pec World.start 3 0x10 1).2.2.2.1.2 (by decide)⟩

/-! ## The flag loop -/

theorem flag_loop_force (w : World) (fs rest : List (List Char))
    (hfs : ∀ t ∈ fs, cAt t 0 = '-' ∧ cAt t 1 = 'f') (flags : Nat) (force : Int) :
    flag_loop w (fs ++ rest) flags force =
      flag_loop w rest (flags + fs.length) (if fs = [] then force else 1) := by
  induction fs generalizing flags force with
  | nil => simp
  | cons t ts ih =>
    have ht := hfs t (List.mem_cons_self t ts)
    have hts : ∀ u ∈ ts, cAt u 0 = '-' ∧ cAt u 1 = 'f' :=
      fun u hu => hfs u (List.mem_cons_of_mem t hu)
    have hV : ¬ 'f' = 'V' := by decide
    simp only [List.cons_append, flag_loop, ht.1, ht.2, hV, if_true, if_false, List.append_eq]
    rw [ih hts]
    congr 1
    · simp only [List.length_cons]; omega
    · by_cases h : ts = [] <;> simp [h]

/-- C8 as the claim states it fails: `-V` is among the leading flag tokens, after the
unsupported `-x`; the run stops at `-x` with the error message and the usage text, and
ends with status 1. -/
theorem c8_version_after_unsupported_option :
    (main 64 linux (device 0 []) ["i2cget_block".data, "-x".data, "-V".data]).status = 1 ∧
    (main 64 linux (device 0 []) ["i2cget_block".data, "-x".data, "-V".data]).err =
      [Msg.unsupported_option "-x".data, Msg.usage] := by
  decide

/-- C8, amended: when the first leading flag token that is not a force flag (second
character `f`) is a version flag (second character `V`), the run writes the version
string to standard error and nothing else, makes no external call at all and ends
with status 0, whatever the program name, the device and the arguments after it. -/
theorem c8_version_flag (lb : Nat) (H : Header) (E : Env) (prog v : List Char)
    (fs rest : List (List Char))
    (hfs : ∀ t ∈ fs, cAt t 0 = '-' ∧ cAt t 1 = 'f')
    (hv0 : cAt v 0 = '-') (hv1 : cAt v 1 = 'V') :
    main lb H E (prog :: (fs ++ v :: rest)) =
      { out := "", err := [Msg.version], trace := [], status := 0 } ∧
    World.errText H E (main lb H E (prog :: (fs ++ v :: rest))).toWorld =
      "i2cget_block version 0.1\n" := by
  have hm : main lb H E (prog :: (fs ++ v :: rest)) =
      { out := "", err := [Msg.version], trace := [], status := 0 } := by
    simp [main, flag_loop_force _ fs (v :: rest) hfs, flag_loop, hv0, hv1, World.eprint]
  refine ⟨hm, ?_⟩
  rw [hm]
  rfl

/-- C8 at `i2cget_block -f -V 1 0x50`: status 0 and the version string. -/
theorem c8_version_flag_witness :
    (main 64 linux (device 0 []) ["i2cget_block".data, "-f".data, "-V".data, "1".data,
        "0x50".data]).status = 0 ∧
    World.errText linux (device 0 []) (main 64 linux (device 0 [])
      ["i2cget_block".data, "-f".data, "-V".data, "1".data, "0x50".data]).toWorld =
      "i2cget_block version 0.1\n" := by
  have h := c8_version_flag 64 linux (device 0 []) "i2cget_block".data "-V".data
    ["-f".data] ["1".data, "0x50".data] (by decide) (by decide) (by decide)
  exact ⟨congrArg Outcome.status h.1, h.2⟩

/-! ## Exit statuses -/

theorem flag_loop_error (w : World) (l : List (List Char)) (flags : Nat) (force : Int)
    (o : Outcome) (h : flag_loop w l flags force = .error o) :
    o = { toWorld := w.eprint Msg.version, status := 0 } ∨
      ∃ arg, o = help (w.eprint (Msg.unsupported_option arg)) := by
  induction l generalizing flags force with
  | nil => simp [flag_loop] at h
  | cons t ts ih =>
    simp only [flag_loop] at h
    split_ifs at h with h0 hV hf
    · left
      exact (Except.error.inj h).symm
    · exact ih _ _ h
    · right
      exact ⟨t, (Except.error.inj h).symm⟩

theorem print_values_trace (w : World) (values : List Nat) (res : Int) :
    (print_values w values res).trace = w.trace := by
  unfold print_values
  generalize List.range res.toNat = l
  induction l generalizing w with
  | nil => rfl
  | cons i l ih => rw [List.foldl_cons, ih]; rfl

theorem check_funcs_trace (H : Header) (E : Env) (w : World) (file daddress pec : Int) :
    (check_funcs H E w file daddress pec).2.trace =
      w.trace ++ [Event.ioctl_I2C_FUNCS file (E.ioctl_I2C_FUNCS file).1] := by
  simp only [check_funcs]
  split_ifs <;> rfl

/-- A run either ends while the arguments are examined, with status 0 or 1, nothing on
standard output and no call other than the bus lookup and the address parse, or goes
on to `main_device` after both. -/
theorem main_cases (lb : Nat) (H : Header) (E : Env) (argv : List (List Char)) :
    (((main lb H E argv).status = 0 ∨ (main lb H E argv).status = 1) ∧
      (main lb H E argv).out = "" ∧
      ∃ a1 a2, (main lb H E argv).trace = [] ∨
        (main lb H E argv).trace = [Event.lookup_i2c_bus a1 (E.lookup_i2c_bus a1)] ∨
        (main lb H E argv).trace = [Event.lookup_i2c_bus a1 (E.lookup_i2c_bus a1),
          Event.parse_i2c_address a2 (E.parse_i2c_address a2)]) ∨
    ∃ a1 a2 force daddress blocksize pec,
      main lb H E argv = main_device H E
        { out := "", err := [],
          trace := [Event.lookup_i2c_bus a1 (E.lookup_i2c_bus a1),
            Event.parse_i2c_address a2 (E.parse_i2c_address a2)] }
        (E.lookup_i2c_bus a1) (E.parse_i2c_address a2) force daddress blocksize pec ∧
      MIN_BLOCK_SIZE ≤ blocksize ∧ blocksize ≤ MAX_BLOCK_SIZE ∧
      (pec = 0 ∨ ∃ size, cAt size 1 = 'p' ∧ blocksize = to_int (strtol lb size).1) := by
  simp only [main]
  cases hfl : flag_loop { out := "", err := [], trace := [] } (argv.drop 1) 0 0 with
  | error o' =>
    left
    rcases flag_loop_error _ _ _ _ _ hfl with rfl | ⟨arg, rfl⟩ <;>
      simp [help, World.eprint]
  | ok p =>
    obtain ⟨flags, force⟩ := p
    simp only []
    by_cases h1 : argv.length < flags + 3
    · left
      rw [if_pos h1]
      exact ⟨Or.inr rfl, rfl, [], [], Or.inl rfl⟩
    rw [if_neg h1]
    by_cases h2 : E.lookup_i2c_bus (argv.getD (flags + 1) []) < 0
    · left
      rw [if_pos h2]
      exact ⟨Or.inr rfl, rfl, argv.getD (flags + 1) [], [], Or.inr (Or.inl rfl)⟩
    rw [if_neg h2]
    by_cases h3 : E.parse_i2c_address (argv.getD (flags + 2) []) < 0
    · left
      rw [if_pos h3]
      exact ⟨Or.inr rfl, rfl, argv.getD (flags + 1) [], argv.getD (flags + 2) [],
        Or.inr (Or.inr rfl)⟩
    rw [if_neg h3]
    by_cases h4 : argv.length > flags + 4
    · simp only [h4, if_true, true_and]
      split_ifs
      all_goals
        first
        | exact Or.inl ⟨Or.inr rfl, rfl, argv.getD (flags + 1) [], argv.getD (flags + 2) [],
            Or.inr (Or.inr rfl)⟩
        | (right
           refine ⟨_, _, _, _, _, _, rfl, ?_, ?_, ?_⟩
           · simp only [MIN_BLOCK_SIZE, MAX_BLOCK_SIZE] at *; omega
           · simp only [MIN_BLOCK_SIZE, MAX_BLOCK_SIZE] at *; omega
           · first
             | exact Or.inl rfl
             | exact Or.inr ⟨argv.getD (flags + 4) [], by assumption, rfl⟩)
    · simp only [h4, false_and, if_false]
      split_ifs
      all_goals
        first
        | exact Or.inl ⟨Or.inr rfl, rfl, argv.getD (flags + 1) [], argv.getD (flags + 2) [],
            Or.inr (Or.inr rfl)⟩
        | exact Or.inr ⟨_, _, _, _, _, _, rfl, by decide, by decide, Or.inl rfl⟩

theorem main_device_names (H : Header) (E : Env) (w : World)
    (i2cbus address force daddress blocksize pec : Int) :
    ∃ l, (main_device H E w i2cbus address force daddress blocksize pec).trace.map Event.name =
        w.trace.map Event.name ++ l ∧
      l ∈ [[Call.open_i2c_dev],
        [Call.open_i2c_dev, Call.ioctl_I2C_FUNCS],
        [Call.open_i2c_dev, Call.ioctl_I2C_FUNCS, Call.set_slave_addr],
        [Call.open_i2c_dev, Call.ioctl_I2C_FUNCS, Call.set_slave_addr, Call.ioctl_I2C_PEC,
          Call.close],
        [Call.open_i2c_dev, Call.ioctl_I2C_FUNCS, Call.set_slave_addr,
          Call.i2c_smbus_read_i2c_block_data, Call.close],
        [Call.open_i2c_dev, Call.ioctl_I2C_FUNCS, Call.set_slave_addr, Call.ioctl_I2C_PEC,
          Call.i2c_smbus_read_i2c_block_data, Call.close]] := by
  have ht := check_funcs_trace H E (w.call (.open_i2c_dev i2cbus (E.open_i2c_dev i2cbus)))
    (E.open_i2c_dev i2cbus) daddress pec
  simp only [main_device]
  generalize check_funcs H E (w.call (.open_i2c_dev i2cbus (E.open_i2c_dev i2cbus)))
    (E.open_i2c_dev i2cbus) daddress pec = c at ht ⊢
  obtain ⟨r, ⟨out1, err1, trace1⟩⟩ := c
  simp only [World.call] at ht
  subst ht
  split_ifs <;>
    simp [World.call, World.eprint, World.print, print_values_trace, Event.name]
  all_goals tauto

/-- C9 as the claim states it fails: in the run of `i2cget_block 1 0x50 0x10 4` on a
device where every call succeeds, the capability query is the fourth call, made right
after the open, and `set_slave_addr` is called only after it: no bind precedes the
query. -/
theorem c9_query_precedes_bind :
    (main 64 linux (device 1 [0x05]) (args "0x10" "4")).trace =
      [.lookup_i2c_bus "1".data 1, .parse_i2c_address "0x50".data 0x50,
       .open_i2c_dev 1 3, .ioctl_I2C_FUNCS 3 0, .set_slave_addr 3 0x50 0 0,
       .i2c_smbus_read_i2c_block_data 3 0x10 4 1, .close 3] ∧
    (∀ e ∈ (main 64 linux (device 1 [0x05]) (args "0x10" "4")).trace.take 3,
      e.name ≠ Call.set_slave_addr) ∧
    ((main 64 linux (device 1 [0x05]) (args "0x10" "4")).trace.drop 3).head? =
      some (.ioctl_I2C_FUNCS 3 0) := by
  decide

/-- C9, amended: in every run the external calls are made in the order bus lookup,
address parse, open, capability query, bind, PEC negotiation, block read, close, each
at most once, the run stopping after any of them: the capability query is made on the
open handle before `set_slave_addr`, which is called only after the query. -/
theorem c9_order_of_calls (lb : Nat) (H : Header) (E : Env) (argv : List (List Char)) :
    (main lb H E argv).trace.map Event.name ∈
      [[],
       [Call.lookup_i2c_bus],
       [Call.lookup_i2c_bus, Call.parse_i2c_address],
       [Call.lookup_i2c_bus, Call.parse_i2c_address, Call.open_i2c_dev],
       [Call.lookup_i2c_bus, Call.parse_i2c_address, Call.open_i2c_dev, Call.ioctl_I2C_FUNCS],
       [Call.lookup_i2c_bus, Call.parse_i2c_address, Call.open_i2c_dev, Call.ioctl_I2C_FUNCS,
         Call.set_slave_addr],
       [Call.lookup_i2c_bus, Call.parse_i2c_address, Call.open_i2c_dev, Call.ioctl_I2C_FUNCS,
         Call.set_slave_addr, Call.ioctl_I2C_PEC, Call.close],
       [Call.lookup_i2c_bus, Call.parse_i2c_address, Call.open_i2c_dev, Call.ioctl_I2C_FUNCS,
         Call.set_slave_addr, Call.i2c_smbus_read_i2c_block_data, Call.close],
       [Call.lookup_i2c_bus, Call.parse_i2c_address, Call.open_i2c_dev, Call.ioctl_I2C_FUNCS,
         Call.set_slave_addr, Call.ioctl_I2C_PEC, Call.i2c_smbus_read_i2c_block_data,
         Call.close]] := by
  rcases main_cases lb H E argv with ⟨-, -, a1, a2, ht⟩ | ⟨a1, a2, force, d, b, p, hm, -, -, -⟩
  · rcases ht with ht | ht | ht <;> rw [ht] <;> simp [Event.name]
  · rw [hm]
    obtain ⟨l, hl, hmem⟩ := main_device_names H E
      { out := "", err := [],
        trace := [Event.lookup_i2c_bus a1 (E.lookup_i2c_bus a1),
          Event.parse_i2c_address a2 (E.parse_i2c_address a2)] }
      (E.lookup_i2c_bus a1) (E.parse_i2c_address a2) force d b p
    rw [hl]
    simp only [List.mem_cons, List.mem_singleton, List.not_mem_nil, or_false] at hmem
    rcases hmem with rfl | rfl | rfl | rfl | rfl | rfl <;> simp [Event.name]

/-! ## `strtol` on the tokens of the program -/

theorem char_eq_of_toNat (c : Char) (n : Nat) (h : c.toNat = n) : c = Char.ofNat n := by
  rw [← h, Char.ofNat_toNat]

theorem LONG_MAX_ge (lb : Nat) (hlb : 32 ≤ lb) : (2147483647 : Int) ≤ LONG_MAX lb := by
  unfold LONG_MAX
  have h : 2 ^ 31 ≤ 2 ^ (lb - 1) := Nat.pow_le_pow_right (by omega) (by omega)
  have h2 : ((2 ^ 31 : Nat) : Int) ≤ ((2 ^ (lb - 1) : Nat) : Int) := by exact_mod_cast h
  push_cast at h2
  omega

theorem scanDigits_cons_digit (base : Nat) (c : Char) (cs : List Char) (acc : Nat) (any : Bool)
    (d : Nat) (h : digitVal c = some d) (hlt : d < base) :
    scanDigits base (c :: cs) acc any = scanDigits base cs (acc * base + d) true := by
  simp only [scanDigits, h, hlt, if_true]

theorem scanDigits_cons_stop (base : Nat) (c : Char) (cs : List Char) (acc : Nat) (any : Bool)
    (h : ∀ d, digitVal c = some d → ¬ d < base) :
    scanDigits base (c :: cs) acc any = (acc, any, c :: cs) := by
  cases hd : digitVal c with
  | none => simp only [scanDigits, hd]
  | some d => simp only [scanDigits, hd, h d hd, if_false]

theorem scanDigits_p (base : Nat) (hb : base ≤ 16) (rest : List Char) (acc : Nat) (any : Bool) :
    scanDigits base ('p' :: rest) acc any = (acc, any, 'p' :: rest) := by
  apply scanDigits_cons_stop
  intro d hd
  have h25 : digitVal 'p' = some 25 := by decide
  rw [h25] at hd
  cases hd
  omega

theorem strtol_digits_p (rest : List Char) :
    strtol_digits ('p' :: rest) = (0, false, 'p' :: rest) := by
  have h0 : has_0x ('p' :: rest) = false := by
    simp [has_0x, cAt]
  have h1 : ¬ cAt ('p' :: rest) 0 = '0' := by simp [cAt]
  simp only [strtol_digits, h0, h1, if_false, Bool.false_eq_true]
  exact scanDigits_p 10 (by omega) rest 0 false

theorem strtol_signed_p (lb : Nat) (rest : List Char) :
    strtol_signed lb ('p' :: rest) = none := by
  have h1 : ¬ (cAt ('p' :: rest) 0 = '-' ∨ cAt ('p' :: rest) 0 = '+') := by simp [cAt]
  unfold strtol_signed
  simp only [h1, if_false]
  rw [strtol_digits_p]

theorem strtol_signed_plain (lb : Nat) (s : List Char) (h1 : ¬ cAt s 0 = '-')
    (h2 : ¬ cAt s 0 = '+') :
    strtol_signed lb s =
      match strtol_digits s with
      | (_, false, _) => none
      | (v, true, rest) => some (min (LONG_MAX lb) (v : Int), rest) := by
  have h3 : ¬ (cAt s 0 = '-' ∨ cAt s 0 = '+') := fun h => h.elim h1 h2
  unfold strtol_signed
  simp only [h1, h2, or_self, if_false, decide_False, Bool.false_eq_true]

/-- The digits `strtol` reads from a token whose second character is `p`. -/
theorem strtol_digits_second_p (c : Char) (rest : List Char) :
    (49 ≤ c.toNat ∧ c.toNat ≤ 57 ∧
      strtol_digits (c :: 'p' :: rest) = (c.toNat - 48, true, 'p' :: rest)) ∨
    strtol_digits (c :: 'p' :: rest) = (0, true, 'p' :: rest) ∨
    strtol_digits (c :: 'p' :: rest) = (0, false, c :: 'p' :: rest) := by
  have h0x : has_0x (c :: 'p' :: rest) = false := by
    simp [has_0x, cAt]
  have hc : cAt (c :: 'p' :: rest) 0 = c := by simp [cAt]
  unfold strtol_digits
  simp only [h0x, Bool.false_eq_true, if_false, hc]
  by_cases h0 : c = '0'
  · right; left
    subst h0
    have hd : digitVal '0' = some 0 := by decide
    simp only [if_true]
    rw [scanDigits_cons_digit 8 '0' _ 0 false 0 hd (by omega)]
    exact scanDigits_p 8 (by omega) rest _ _
  · simp only [h0, if_false]
    have h48 : c.toNat ≠ 48 := fun h => h0 (char_eq_of_toNat c 48 h)
    by_cases hd : 49 ≤ c.toNat ∧ c.toNat ≤ 57
    · left
      have hdv : digitVal c = some (c.toNat - 48) := by
        unfold digitVal
        rw [if_pos (by omega)]
      refine ⟨hd.1, hd.2, ?_⟩
      rw [scanDigits_cons_digit 10 c _ 0 false _ hdv (by omega), scanDigits_p 10 (by omega)]
      simp
    · right; right
      apply scanDigits_cons_stop
      intro d hdv
      unfold digitVal at hdv
      split_ifs at hdv <;> cases hdv <;> omega

/-- The value `strtol` reads from a token whose second character is `p`: the first
character when that is a digit from 1 to 9, and 0 in every other case. -/
theorem strtol_second_p (lb : Nat) (hlb : 32 ≤ lb) (c : Char) (rest : List Char) :
    (49 ≤ c.toNat ∧ c.toNat ≤ 57 ∧
      strtol lb (c :: 'p' :: rest) = ((c.toNat : Int) - 48, 'p' :: rest)) ∨
    (strtol lb (c :: 'p' :: rest)).1 = 0 := by
  have hp : isspace 'p' = false := by decide
  have hmax := LONG_MAX_ge lb hlb
  by_cases hsp : isspace c = true
  · right
    unfold strtol
    simp only [List.dropWhile_cons, hsp, hp, if_true, if_false, Bool.false_eq_true,
      strtol_signed_p]
  · have hdw : (c :: 'p' :: rest).dropWhile isspace = c :: 'p' :: rest := by
      simp [List.dropWhile_cons, hsp]
    unfold strtol
    rw [hdw]
    by_cases hsign : c = '-' ∨ c = '+'
    · right
      have h1 : cAt (c :: 'p' :: rest) 0 = '-' ∨ cAt (c :: 'p' :: rest) 0 = '+' := by
        simpa [cAt] using hsign
      unfold strtol_signed
      simp only [h1, if_true, List.drop_succ_cons, List.drop_zero]
      rw [strtol_digits_p]
    · have h1 : ¬ cAt (c :: 'p' :: rest) 0 = '-' := by
        simpa [cAt] using fun h => hsign (Or.inl h)
      have h2 : ¬ cAt (c :: 'p' :: rest) 0 = '+' := by
        simpa [cAt] using fun h => hsign (Or.inr h)
      rw [strtol_signed_plain lb _ h1 h2]
      rcases strtol_digits_second_p c rest with ⟨ha, hb, hd⟩ | hd | hd
      · left
        refine ⟨ha, hb, ?_⟩
        rw [hd]
        simp only [Prod.mk.injEq, and_true]
        omega
      · right
        rw [hd]
        simp only []
        omega
      · right
        rw [hd]

/-! ## PEC and the block size -/

theorem strtol_nil (lb : Nat) : strtol lb [] = (0, []) := by
  rfl

theorem to_int_small (x : Int) (h0 : 0 ≤ x) (h1 : x ≤ 2147483647) : to_int x = x := by
  unfold to_int
  norm_num
  omega

theorem main_device_pec_read (H : Header) (E : Env) (w : World)
    (i2cbus address force daddress blocksize pec : Int)
    (hp : ∀ f r, Event.ioctl_I2C_PEC f r ∉ w.trace)
    (hr : ∀ f d b r, Event.i2c_smbus_read_i2c_block_data f d b r ∉ w.trace) :
    ((∃ f r, Event.ioctl_I2C_PEC f r ∈
        (main_device H E w i2cbus address force daddress blocksize pec).trace) → pec ≠ 0) ∧
    (∀ f d b r, Event.i2c_smbus_read_i2c_block_data f d b r ∈
        (main_device H E w i2cbus address force daddress blocksize pec).trace →
      d = daddress ∧ b = blocksize) := by
  have ht := check_funcs_trace H E (w.call (.open_i2c_dev i2cbus (E.open_i2c_dev i2cbus)))
    (E.open_i2c_dev i2cbus) daddress pec
  simp only [main_device]
  generalize check_funcs H E (w.call (.open_i2c_dev i2cbus (E.open_i2c_dev i2cbus)))
    (E.open_i2c_dev i2cbus) daddress pec = c at ht ⊢
  obtain ⟨r, ⟨out1, err1, trace1⟩⟩ := c
  simp only [World.call] at ht
  subst ht
  split_ifs <;>
    simp [World.call, World.eprint, World.print, print_values_trace, hp, hr]
  all_goals tauto

/-- C10: a SIZE token that passes the block-size check is not empty, so its second
character is at most the terminator; if that character is `p`, the first character is
a digit from 1 to 9 and the block size is that digit.  So in every run in which PEC
is negotiated on the handle, a block read is made with a block size from 1 to 9. -/
theorem c10_pec_block_size (lb : Nat) (hlb : 32 ≤ lb) :
    (∀ size : List Char, MIN_BLOCK_SIZE ≤ to_int (strtol lb size).1 →
      to_int (strtol lb size).1 ≤ MAX_BLOCK_SIZE →
        1 ≤ size.length ∧
        (cAt size 1 = 'p' → ∃ c rest, size = c :: 'p' :: rest ∧ 49 ≤ c.toNat ∧ c.toNat ≤ 57 ∧
          to_int (strtol lb size).1 = (c.toNat : Int) - 48)) ∧
    (∀ (H : Header) (E : Env) (argv : List (List Char)),
      (∃ file ret, Event.ioctl_I2C_PEC file ret ∈ (main lb H E argv).trace) →
        ∀ f d b r, Event.i2c_smbus_read_i2c_block_data f d b r ∈ (main lb H E argv).trace →
          1 ≤ b ∧ b ≤ 9) := by
  have key : ∀ size : List Char, MIN_BLOCK_SIZE ≤ to_int (strtol lb size).1 →
      to_int (strtol lb size).1 ≤ MAX_BLOCK_SIZE →
        1 ≤ size.length ∧
        (cAt size 1 = 'p' → ∃ c rest, size = c :: 'p' :: rest ∧ 49 ≤ c.toNat ∧ c.toNat ≤ 57 ∧
          to_int (strtol lb size).1 = (c.toNat : Int) - 48) := by
    intro size hmin hmax
    have h00 : to_int 0 = 0 := by decide
    simp only [MIN_BLOCK_SIZE] at hmin
    constructor
    · cases size with
      | nil =>
        rw [strtol_nil, h00] at hmin
        omega
      | cons c cs => simp
    · intro hp
      match size, hp with
      | [], hp => exact absurd hp (by decide)
      | [c], hp => exact absurd hp (by simp [cAt])
      | c :: c1 :: rest, hp =>
        have hc1 : c1 = 'p' := by simpa [cAt] using hp
        subst hc1
        rcases strtol_second_p lb hlb c rest with ⟨ha, hb, hs⟩ | hs
        · refine ⟨c, rest, rfl, ha, hb, ?_⟩
          rw [hs]
          exact to_int_small _ (by omega) (by omega)
        · rw [hs, h00] at hmin
          omega
  refine ⟨key, ?_⟩
  intro H E argv hpec f d b r hread
  rcases main_cases lb H E argv with ⟨-, -, a1, a2, ht⟩ | ⟨a1, a2, force, d', b', p, hm, hlo, hhi, hp⟩
  · exfalso
    rcases ht with ht | ht | ht <;> rw [ht] at hread <;> simp at hread
  · rw [hm] at hpec hread
    have hdev := main_device_pec_read H E
      { out := "", err := [],
        trace := [Event.lookup_i2c_bus a1 (E.lookup_i2c_bus a1),
          Event.parse_i2c_address a2 (E.parse_i2c_address a2)] }
      (E.lookup_i2c_bus a1) (E.parse_i2c_address a2) force d' b' p (by simp) (by simp)
    have hp0 := hdev.1 hpec
    have hb := (hdev.2 f d b r hread).2
    rcases hp with hp | ⟨size, hsp, hbs⟩
    · exact absurd hp hp0
    · subst hb
      rw [hbs] at hlo hhi ⊢
      obtain ⟨c, rest, -, ha, hb2, hv⟩ := (key size hlo hhi).2 hsp
      rw [hv]
      omega

/-- C10 at the SIZE token `4p` with a 64-bit `long`: the block size is 4, and the run
that negotiates PEC reads a block of 4 bytes. -/
theorem c10_pec_block_size_witness :
    (32 : Nat) ≤ 64 ∧ cAt "4p".data 1 = 'p' ∧ to_int (strtol 64 "4p".data).1 = 4 ∧
    Event.ioctl_I2C_PEC 3 0 ∈ (main 64 linux (device 1 [0x05]) (args "0x10" "4p")).trace ∧
    Event.i2c_smbus_read_i2c_block_data 3 0x10 4 1 ∈
      (main 64 linux (device 1 [0x05]) (args "0x10" "4p")).trace ∧
    (1 : Int) ≤ 4 ∧ (4 : Int) ≤ 9 := by
  obtain ⟨c, rest, hs, -, -, hv⟩ :=
    ((c10_pec_block_size 64 (by decide)).1 "4p".data (by decide) (by decide)).2 (by decide)
  have hrun := (c10_pec_block_size 64 (by decide)).2 linux (device 1 [0x05])
    (args "0x10" "4p") ⟨3, 0, by decide⟩ 3 0x10 4 1 (by decide)
  refine ⟨by decide, by decide, ?_, by decide, by decide, hrun⟩
  rw [hv]
  have hc : c = '4' := (List.head_eq_of_cons_eq hs).symm
  rw [hc]
  decide

/-! ## The SIZE token -/

end I2cgetBlock
